import Mathlib

/-!
Verification of the TRON UR-registry codec
(`src/libs/ur-registry-ffi/src/tron/tron_sign_request.rs` and
`src/libs/ur-registry-ffi/src/tron/tron_signature.rs`).

CBOR values are embedded as the inductive `Value` below, mirroring the
`serde_cbor::Value` variants this code constructs and inspects (the `Float`
and `Tag` variants, which the code never produces and which every decoder
match treats like any other unexpected variant, are represented by the same
catch-all behaviour as `null`).  The external `serde_cbor` byte serializer
(`to_vec` / `from_slice`) is third-party library code, not part of this
repository; it is modelled as the identity embedding on CBOR values, so
`to_bytes` and `try_from` are embedded up to that byte layer: `to_bytes`
returns the CBOR value that the source serializes, `try_from` consumes the
CBOR value that the source parses out of the bytes.  `BTreeMap` iteration
is in ascending key order; the source inserts the integer keys 1..6 in
ascending order, so the association lists below list entries in exactly the
order the serialized map carries them.
-/

/-- The subset of `serde_cbor::Value` used by the TRON codec. -/
inductive Value where
  | integer : Int → Value
  | bytes : List Nat → Value
  | text : String → Value
  | bool : Bool → Value
  | null : Value
  | array : List Value → Value
  | map : List (Value × Value) → Value

/-- `BTreeMap::get(&Value::Integer(k))`: first entry whose key is `Integer k`
(entry keys of decoded maps are unique, so first-match is map lookup). -/
def getInt : List (Value × Value) → Int → Option Value
  | [], _ => none
  | (Value.integer j, v) :: rest, k => if j = k then some v else getInt rest k
  | _ :: rest, k => getInt rest k

/-- `.and_then(|v| if let Value::Bytes(b) = v .. )` applied to a lookup result. -/
def asBytes : Option Value → Option (List Nat)
  | some (Value.bytes b) => some b
  | _ => none

/-- `.and_then(|v| if let Value::Text(s) = v .. )` applied to a lookup result. -/
def asText : Option Value → Option String
  | some (Value.text s) => some s
  | _ => none

/-- Rust `as u32` on an `i128`: the low 32 bits (two's complement). -/
def toU32 (i : Int) : Nat := (i % (2 ^ 32 : Int)).toNat

/-- The apostrophe character, the hardening marker of a path component. -/
def apos : Char := Char.ofNat 39

/-- Rust `str::split(sep)` on the character list of a string. -/
def splitOnChar (sep : Char) : List Char → List (List Char)
  | [] => [[]]
  | c :: rest =>
    if c = sep then [] :: splitOnChar sep rest
    else
      match splitOnChar sep rest with
      | [] => [[c]]
      | p :: ps => (c :: p) :: ps

/-- Rust `str::trim_start_matches("m/")`: repeatedly strip a leading `m/`. -/
def stripLeadingM : List Char → List Char
  | a :: b :: rest => if a = 'm' ∧ b = '/' then stripLeadingM rest else a :: b :: rest
  | l => l

/-- Rust `str::parse::<u32>()`: an optional leading plus sign, then one or
more ASCII digits, value at most `u32::MAX`; anything else is a parse error
(`none`). -/
def parseU32 (l : List Char) : Option Nat :=
  let ds := match l with
    | c :: rest => if c = '+' then rest else c :: rest
    | [] => []
  if ds ≠ [] ∧ ds.all (fun c => c.isDigit) then
    let n := ds.foldl (fun a c => a * 10 + (c.toNat - 48)) 0
    if n < 2 ^ 32 then some n else none
  else none

/-- Rust `str::trim_end_matches('\x27')`: drop every trailing apostrophe. -/
def trimApos (l : List Char) : List Char :=
  (l.reverse.dropWhile (fun c => c == apos)).reverse

/-- Rust `str::ends_with('\x27')`. -/
def endsApos (l : List Char) : Bool :=
  match l.reverse with
  | c :: _ => c == apos
  | [] => false

/-- One loop iteration of `encode_derivation_path`: `hardened` from the
trailing marker, index from parsing the component with the markers trimmed;
a parse failure is the source's `format!("Invalid path component: {}", part)`. -/
def parsePart (part : List Char) : Except String (Nat × Bool) :=
  match parseU32 (trimApos part) with
  | some i => Except.ok (i, endsApos part)
  | none => Except.error ("Invalid path component: " ++ String.mk part)

/-- The `for part in parts` loop of `encode_derivation_path`: parse each
component in order, stopping at the first failure (the `?` operator). -/
def parseParts : List (List Char) → Except String (List (Nat × Bool))
  | [] => Except.ok []
  | p :: ps =>
    match parsePart p with
    | Except.error e => Except.error e
    | Except.ok c =>
      match parseParts ps with
      | Except.error e => Except.error e
      | Except.ok cs => Except.ok (c :: cs)

/-- `path.trim_start_matches("m/").split('/')` as a list of components. -/
def pathParts (s : String) : List (List Char) := splitOnChar '/' (stripLeadingM s.data)

/-- The component sequence a derivation-path string denotes: the exact
parse performed by `encode_derivation_path`. -/
def parsePathString (s : String) : Except String (List (Nat × Bool)) := parseParts (pathParts s)

/-- `encode_derivation_path` (tron_sign_request.rs, lines 131-156): parse the
textual path, wrap the `[index, hardened]` pairs under key 1 and the optional
fingerprint under key 2. -/
def encode_derivation_path (path : String) (xfp : Option Nat) : Except String Value :=
  match parsePathString path with
  | Except.error e => Except.error e
  | Except.ok comps =>
    Except.ok (Value.map
      ((Value.integer 1,
        Value.array (comps.map fun p => Value.array [Value.integer (p.1 : Int), Value.bool p.2])) ::
       (match xfp with
        | some f => [(Value.integer 2, Value.integer (f : Int))]
        | none => [])))

/-- The `TronSignRequest` record (tron_sign_request.rs, lines 46-55);
`data_type` and `xfp` are `u32` in the source, embedded as `Nat` with the
`< 2 ^ 32` representation invariant carried as a hypothesis where it matters. -/
structure TronSignRequest where
  request_id : Option (List Nat)
  sign_data : List Nat
  data_type : Nat
  derivation_path : String
  xfp : Option Nat
  address : Option String
  origin : Option String
  deriving DecidableEq

/-- `TronSignRequest::new`. -/
def TronSignRequest.new (request_id : Option (List Nat)) (sign_data : List Nat)
    (data_type : Nat) (derivation_path : String) (xfp : Option Nat)
    (address : Option String) (origin : Option String) : TronSignRequest :=
  ⟨request_id, sign_data, data_type, derivation_path, xfp, address, origin⟩

/-- `TronSignRequest::to_bytes` (lines 103-127), embedded up to the final
`serde_cbor::to_vec` call: the `BTreeMap` it serializes, with the entries in
the ascending key order `to_vec` writes them in. -/
def TronSignRequest.to_bytes (x : TronSignRequest) : Except String Value :=
  match encode_derivation_path x.derivation_path x.xfp with
  | Except.error e => Except.error e
  | Except.ok pathValue =>
    Except.ok (Value.map
      ((match x.request_id with
        | some id => [(Value.integer 1, Value.bytes id)]
        | none => []) ++
       (Value.integer 2, Value.bytes x.sign_data) ::
       (Value.integer 3, Value.integer (x.data_type : Int)) ::
       (Value.integer 4, pathValue) ::
       ((match x.address with
         | some a => [(Value.integer 5, Value.text a)]
         | none => []) ++
        (match x.origin with
         | some o => [(Value.integer 6, Value.text o)]
         | none => []))))

/-- Decimal rendering of a `u32`, as Rust `u32::to_string()` produces it. -/
def natChars (n : Nat) : List Char :=
  if n = 0 then ['0'] else ((Nat.digits 10 n).map Nat.digitChar).reverse

/-- One loop iteration of `decode_derivation_path` (lines 210-223): an array
of length at least 2 contributes `/index` plus a hardening marker; a
non-array or short-array component contributes nothing; a non-integer index
defaults to 0 and a non-bool hardened flag to false. -/
def componentChars : Value → List Char
  | Value.array (a :: b :: _) =>
    '/' :: (natChars (match a with | Value.integer i => toU32 i | _ => 0) ++
      (match b with | Value.bool hb => (if hb then [apos] else []) | _ => []))
  | _ => []

/-- The whole component loop of `decode_derivation_path`. -/
def renderComponents : List Value → List Char
  | [] => []
  | c :: cs => componentChars c ++ renderComponents cs

/-- The hard-coded default TRON path (line 226). -/
def defaultTronPath : String := "m/44'/195'/0'/0/0"

/-- `decode_derivation_path` (lines 202-228). -/
def decode_derivation_path : Option Value → Except String String
  | some (Value.map pm) =>
    match getInt pm 1 with
    | some (Value.array comps) => Except.ok (String.mk ('m' :: renderComponents comps))
    | _ => Except.error "Missing path components"
  | _ => Except.ok defaultTronPath

/-- `TryFrom<Vec<u8>> for TronSignRequest` (lines 158-200), embedded from the
CBOR value that `serde_cbor::from_slice` yields. -/
def TronSignRequest.try_from (v : Value) : Except String TronSignRequest :=
  match v with
  | Value.map m =>
    match asBytes (getInt m 2) with
    | none => Except.error "Missing sign_data"
    | some sign_data =>
      match decode_derivation_path (getInt m 4) with
      | Except.error e => Except.error e
      | Except.ok derivation_path =>
        Except.ok ⟨asBytes (getInt m 1), sign_data,
          (match getInt m 3 with
           | some (Value.integer i) => toU32 i
           | _ => 1),
          derivation_path, none, asText (getInt m 5), asText (getInt m 6)⟩
  | _ => Except.error "Expected CBOR map"

/-- The `DataType` enum (lines 20-25). -/
inductive DataType where
  | transaction : DataType
  | message : DataType
  | typedData : DataType
  deriving DecidableEq

/-- `DataType::from_u32` (lines 28-35). -/
def DataType.from_u32 : Nat → Except String DataType
  | 1 => Except.ok DataType.transaction
  | 2 => Except.ok DataType.message
  | 3 => Except.ok DataType.typedData
  | v => Except.error ("Invalid data type: " ++ toString v)

/-- `DataType::to_u32` (lines 37-43). -/
def DataType.to_u32 : DataType → Nat
  | DataType.transaction => 1
  | DataType.message => 2
  | DataType.typedData => 3

/-- The `TronSignature` record (tron_signature.rs, lines 14-18). -/
structure TronSignature where
  request_id : Option (List Nat)
  signature : List Nat
  deriving DecidableEq

/-- `TryFrom<Vec<u8>> for TronSignature` (tron_signature.rs, lines 51-74),
embedded from the CBOR value that `serde_cbor::from_slice` yields. -/
def TronSignature.try_from (v : Value) : Except String TronSignature :=
  match v with
  | Value.map m =>
    match asBytes (getInt m 2) with
    | none => Except.error "Missing signature"
    | some signature => Except.ok ⟨asBytes (getInt m 1), signature⟩
  | _ => Except.error "Expected CBOR map"

/-- Modelled from the spec: the uniform tagged result object every
boundary-facing operation returns (spec, section 9: Success(payload),
SuccessNull, Error(message)); the `Response` type lives in `crate::response`,
outside `src/`. -/
inductive Response where
  | success : String → Response
  | successNull : Response
  | error : String → Response
  deriving DecidableEq

/-- Modelled from the spec: the hex-string marshalling helper the accessors
use (`hex::encode`, an external crate): lowercase hex, two digits per byte. -/
def hexEncode (bs : List Nat) : String :=
  String.mk (bs.foldr (fun b acc => Nat.digitChar (b / 16 % 16) :: Nat.digitChar (b % 16) :: acc) [])

/-- `tron_signature_get_request_id` (tron_signature.rs, lines 90-96). -/
def tron_signature_get_request_id (s : TronSignature) : Response :=
  match s.request_id with
  | some v => Response.success (hexEncode v)
  | none => Response.error "No request id supplied"

/-- Hex value of one character (`0-9`, `a-f`, `A-F`). -/
def hexVal (c : Char) : Option Nat :=
  if c.isDigit then some (c.toNat - 48)
  else if 97 ≤ c.toNat ∧ c.toNat ≤ 102 then some (c.toNat - 87)
  else if 65 ≤ c.toNat ∧ c.toNat ≤ 70 then some (c.toNat - 55)
  else none

/-- Hex decoding of a character list: pairs of hex digits; an odd length or a
non-hex character is an error. -/
def hexDecodeChars : List Char → Except String (List Nat)
  | [] => Except.ok []
  | c1 :: c2 :: rest =>
    match hexVal c1, hexVal c2, hexDecodeChars rest with
    | some a, some b, Except.ok bs => Except.ok ((a * 16 + b) :: bs)
    | _, _, _ => Except.error "HexDecodeError"
  | _ => Except.error "HexDecodeError"

/-- Modelled from the spec: `parse_ptr_string_to_bytes` (in `crate::utils`,
outside `src/`), the hex-string-to-bytes marshalling helper; an empty string
decodes to an empty byte sequence. -/
def parse_ptr_string_to_bytes (s : String) : Except String (List Nat) :=
  hexDecodeChars s.data

/-- Modelled from the spec: `convert_ptr_string_to_string` (in
`crate::utils`, outside `src/`), the string marshalling helper; for text
that is already valid it succeeds with the text itself. -/
def convert_ptr_string_to_string (s : String) : Except String String :=
  Except.ok s

/-- `tron_sign_request_construct` (tron_sign_request.rs, lines 244-285), with
the host pointers already read back as strings; returns the record the
success branch boxes, or the error the failing conversion reports. -/
def tron_sign_request_construct (request_id sign_data path : String) (xfp : Nat)
    (address origin : String) (data_type : Nat) : Except String TronSignRequest :=
  match parse_ptr_string_to_bytes request_id with
  | Except.error e => Except.error e
  | Except.ok rid =>
    match parse_ptr_string_to_bytes sign_data with
    | Except.error e => Except.error e
    | Except.ok sd =>
      match convert_ptr_string_to_string path with
      | Except.error e => Except.error e
      | Except.ok p =>
        match convert_ptr_string_to_string address with
        | Except.error e => Except.error e
        | Except.ok a =>
          match convert_ptr_string_to_string origin with
          | Except.error e => Except.error e
          | Except.ok o =>
            Except.ok (TronSignRequest.new (some rid) sd data_type p (some xfp)
              ((some a).filter fun s => !s.isEmpty)
              ((some o).filter fun s => !s.isEmpty))

/-- The derivation-path entry shapes on which `decode_derivation_path`
errors: a CBOR map without an array under sub-key 1.  Absent or non-map
entries take the default-path branch instead. -/
def badPathEntry : Option Value → Bool
  | some (Value.map pm) =>
    match getInt pm 1 with
    | some (Value.array _) => false
    | _ => true
  | _ => false

/-- The characters `decode_derivation_path` emits for one `(index, hardened)`
pair (without the leading slash). -/
def renderPair (p : Nat × Bool) : List Char :=
  natChars p.1 ++ (if p.2 then [apos] else [])

/-- The characters `decode_derivation_path` emits after the leading `m` for a
well-formed component list. -/
def renderPairs : List (Nat × Bool) → List Char
  | [] => []
  | p :: ps => '/' :: (renderPair p ++ renderPairs ps)

example : parsePathString defaultTronPath =
    Except.ok [(44, true), (195, true), (0, true), (0, false), (0, false)] := rfl

example : TronSignRequest.try_from (Value.map [(Value.integer 2, Value.bytes [1, 2])]) =
    Except.ok ⟨none, [1, 2], 1, defaultTronPath, none, none, none⟩ := rfl

/-- C4: decoding a CBOR map with no byte-string value under the sign_data
key (2) fails with the missing-field error and yields no record. -/
theorem try_from_missing_sign_data_fails (m : List (Value × Value))
    (h : asBytes (getInt m 2) = none) :
    TronSignRequest.try_from (Value.map m) = Except.error "Missing sign_data" := by
  simp [TronSignRequest.try_from, h]

theorem try_from_missing_sign_data_fails_witness :
    asBytes (getInt ([] : List (Value × Value)) 2) = none ∧
    TronSignRequest.try_from (Value.map []) = Except.error "Missing sign_data" :=
  ⟨rfl, try_from_missing_sign_data_fails [] rfl⟩

/-- C7: every accepted payload decodes to a record whose `xfp` is `none`,
whatever the wire form carried. -/
theorem try_from_xfp_always_none (v : Value) (r : TronSignRequest)
    (h : TronSignRequest.try_from v = Except.ok r) : r.xfp = none := by
  cases v with
  | map m =>
    rcases hsb : asBytes (getInt m 2) with _ | b
    · simp [TronSignRequest.try_from, hsb] at h
    · rcases hdp : decode_derivation_path (getInt m 4) with e | dp
      · simp [TronSignRequest.try_from, hsb, hdp] at h
      · simp [TronSignRequest.try_from, hsb, hdp] at h
        subst h
        rfl
  | integer i => simp [TronSignRequest.try_from] at h
  | bytes b => simp [TronSignRequest.try_from] at h
  | text t => simp [TronSignRequest.try_from] at h
  | bool b => simp [TronSignRequest.try_from] at h
  | null => simp [TronSignRequest.try_from] at h
  | array a => simp [TronSignRequest.try_from] at h

theorem try_from_xfp_always_none_witness :
    TronSignRequest.try_from (Value.map [(Value.integer 2, Value.bytes [3])]) =
      Except.ok ⟨none, [3], 1, defaultTronPath, none, none, none⟩ ∧
    (⟨none, [3], 1, defaultTronPath, none, none, none⟩ : TronSignRequest).xfp = none :=
  ⟨rfl, try_from_xfp_always_none (Value.map [(Value.integer 2, Value.bytes [3])]) _ rfl⟩

/-- C6: a map payload with sign_data present and no derivation_path key (4)
decodes successfully, with the hard-coded default TRON path. -/
theorem try_from_missing_path_defaults (m : List (Value × Value)) (b : List Nat)
    (hsd : asBytes (getInt m 2) = some b) (h4 : getInt m 4 = none) :
    ∃ r, TronSignRequest.try_from (Value.map m) = Except.ok r ∧
      r.derivation_path = defaultTronPath := by
  have hdp : decode_derivation_path (getInt m 4) = Except.ok defaultTronPath := by
    rw [h4]
    rfl
  simp only [TronSignRequest.try_from, hsd, hdp]
  exact ⟨_, rfl, rfl⟩

theorem try_from_missing_path_defaults_witness :
    asBytes (getInt [(Value.integer 2, Value.bytes [5])] 2) = some [5] ∧
    getInt [(Value.integer 2, Value.bytes [5])] 4 = none ∧
    ∃ r, TronSignRequest.try_from (Value.map [(Value.integer 2, Value.bytes [5])]) =
      Except.ok r ∧ r.derivation_path = defaultTronPath :=
  ⟨rfl, rfl, try_from_missing_path_defaults _ [5] rfl rfl⟩

/-- C5 counterexample: a payload that contains sign_data and no data_type
key, yet is rejected by `try_from` (its derivation_path entry is a map with
no component array), so "decoding always succeeds with data_type 1" fails
as stated. -/
theorem try_from_no_data_type_can_still_fail :
    TronSignRequest.try_from
      (Value.map [(Value.integer 2, Value.bytes [1]), (Value.integer 4, Value.map [])]) =
      Except.error "Missing path components" := rfl

/-- C5 amended: a map payload with sign_data present, no data_type key (3),
and a derivation_path entry that decodes, succeeds with data_type 1. -/
theorem try_from_missing_data_type_defaults (m : List (Value × Value)) (b : List Nat)
    (dp : String) (hsd : asBytes (getInt m 2) = some b) (h3 : getInt m 3 = none)
    (hdp : decode_derivation_path (getInt m 4) = Except.ok dp) :
    ∃ r, TronSignRequest.try_from (Value.map m) = Except.ok r ∧ r.data_type = 1 := by
  simp only [TronSignRequest.try_from, hsd, hdp, h3]
  exact ⟨_, rfl, rfl⟩

theorem try_from_missing_data_type_defaults_witness :
    asBytes (getInt [(Value.integer 2, Value.bytes [2])] 2) = some [2] ∧
    getInt [(Value.integer 2, Value.bytes [2])] 3 = none ∧
    decode_derivation_path (getInt [(Value.integer 2, Value.bytes [2])] 4) =
      Except.ok defaultTronPath ∧
    ∃ r, TronSignRequest.try_from (Value.map [(Value.integer 2, Value.bytes [2])]) =
      Except.ok r ∧ r.data_type = 1 :=
  ⟨rfl, rfl, rfl, try_from_missing_data_type_defaults _ [2] defaultTronPath rfl rfl rfl⟩

/-- C3 counterexample: a payload whose data_type key carries the tag 7,
outside {1, 2, 3}, is accepted by `try_from` with data_type 7 — the code
never consults `DataType::from_u32` (which would reject 7) on decode. -/
theorem try_from_accepts_unknown_data_type_tag :
    TronSignRequest.try_from
      (Value.map [(Value.integer 2, Value.bytes []), (Value.integer 3, Value.integer 7)]) =
      Except.ok ⟨none, [], 7, defaultTronPath, none, none, none⟩ ∧
    DataType.from_u32 7 = Except.error "Invalid data type: 7" :=
  ⟨rfl, rfl⟩

/-- C3 amended: `try_from` performs no tag validation: any integer `t` under
key 3 is accepted (given sign_data present and a decodable path entry) and
stored as `t` cast to u32. -/
theorem try_from_data_type_passthrough (m : List (Value × Value)) (t : Int) (b : List Nat)
    (dp : String) (hsd : asBytes (getInt m 2) = some b)
    (h3 : getInt m 3 = some (Value.integer t))
    (hdp : decode_derivation_path (getInt m 4) = Except.ok dp) :
    TronSignRequest.try_from (Value.map m) =
      Except.ok ⟨asBytes (getInt m 1), b, toU32 t, dp, none,
        asText (getInt m 5), asText (getInt m 6)⟩ := by
  simp only [TronSignRequest.try_from, hsd, hdp, h3]

theorem try_from_data_type_passthrough_witness :
    asBytes (getInt [(Value.integer 2, Value.bytes []), (Value.integer 3, Value.integer 9)] 2) =
      some [] ∧
    getInt [(Value.integer 2, Value.bytes []), (Value.integer 3, Value.integer 9)] 3 =
      some (Value.integer 9) ∧
    TronSignRequest.try_from
      (Value.map [(Value.integer 2, Value.bytes []), (Value.integer 3, Value.integer 9)]) =
      Except.ok ⟨none, [], toU32 9, defaultTronPath, none, none, none⟩ :=
  ⟨rfl, rfl, try_from_data_type_passthrough _ 9 [] defaultTronPath rfl rfl rfl⟩

/-- C2 counterexample: a payload containing the mandatory sign_data field
whose derivation_path entry is a map with missing sub-keys is rejected by
`try_from`, so "decoding never fails because of the path entry" fails as
stated. -/
theorem try_from_fails_on_componentless_path_map :
    TronSignRequest.try_from
      (Value.map [(Value.integer 2, Value.bytes []), (Value.integer 4, Value.map [])]) =
      Except.error "Missing path components" := rfl

/-- C2 amended: with sign_data present, `try_from` succeeds exactly when the
derivation_path entry is not a map lacking an array under sub-key 1: absent
or non-map entries fall back to the default path, and garbled components
inside the array are tolerated, but a component-less path map is an error. -/
theorem try_from_path_entry_tolerance (m : List (Value × Value)) (b : List Nat)
    (hsd : asBytes (getInt m 2) = some b) :
    (∃ r, TronSignRequest.try_from (Value.map m) = Except.ok r) ↔
      badPathEntry (getInt m 4) = false := by
  rcases h4 : getInt m 4 with _ | v
  · simp [TronSignRequest.try_from, hsd, h4, decode_derivation_path, badPathEntry]
  · cases v with
    | map pm =>
      rcases h1 : getInt pm 1 with _ | w
      · simp [TronSignRequest.try_from, hsd, h4, decode_derivation_path, badPathEntry, h1]
      · cases w <;>
          simp [TronSignRequest.try_from, hsd, h4, decode_derivation_path, badPathEntry, h1]
    | integer i =>
      simp [TronSignRequest.try_from, hsd, h4, decode_derivation_path, badPathEntry]
    | bytes bb =>
      simp [TronSignRequest.try_from, hsd, h4, decode_derivation_path, badPathEntry]
    | text t =>
      simp [TronSignRequest.try_from, hsd, h4, decode_derivation_path, badPathEntry]
    | bool bo =>
      simp [TronSignRequest.try_from, hsd, h4, decode_derivation_path, badPathEntry]
    | null =>
      simp [TronSignRequest.try_from, hsd, h4, decode_derivation_path, badPathEntry]
    | array a =>
      simp [TronSignRequest.try_from, hsd, h4, decode_derivation_path, badPathEntry]

theorem try_from_path_entry_tolerance_witness :
    asBytes (getInt [(Value.integer 2, Value.bytes [8])] 2) = some [8] ∧
    ((∃ r, TronSignRequest.try_from (Value.map [(Value.integer 2, Value.bytes [8])]) =
        Except.ok r) ↔
      badPathEntry (getInt [(Value.integer 2, Value.bytes [8])] 4) = false) :=
  ⟨rfl, try_from_path_entry_tolerance _ [8] rfl⟩

/-- C9 counterexample: constructing with an empty request_id string yields a
present `some []` request_id, not an absent one — `construct` wraps the
request id in `Some(..)` unconditionally, unlike address and origin. -/
theorem construct_empty_request_id_present :
    tron_sign_request_construct "" "" "m/0" 0 "" "" 1 =
      Except.ok (TronSignRequest.new (some []) [] 1 "m/0" (some 0) none none) ∧
    (TronSignRequest.new (some []) [] 1 "m/0" (some 0) none none).request_id ≠ none :=
  ⟨rfl, by simp [TronSignRequest.new]⟩

/-- C9 amended: an empty supplied string yields an absent field for the
optional address and origin; the request_id, however, is stored present
unconditionally (an empty request-id string becomes `some []`). -/
theorem construct_empty_optional_strings (rid sd path : String) (xfp dt : Nat)
    (bs1 bs2 : List Nat) (h1 : parse_ptr_string_to_bytes rid = Except.ok bs1)
    (h2 : parse_ptr_string_to_bytes sd = Except.ok bs2) :
    tron_sign_request_construct rid sd path xfp "" "" dt =
      Except.ok (TronSignRequest.new (some bs1) bs2 dt path (some xfp) none none) := by
  have hf : ((some "").filter fun s : String => !s.isEmpty) = none := rfl
  simp only [tron_sign_request_construct, h1, h2, convert_ptr_string_to_string, hf]

theorem construct_empty_optional_strings_witness :
    parse_ptr_string_to_bytes "" = Except.ok [] ∧
    parse_ptr_string_to_bytes "ab" = Except.ok [171] ∧
    tron_sign_request_construct "" "ab" "m/0" 7 "" "" 2 =
      Except.ok (TronSignRequest.new (some []) [171] 2 "m/0" (some 7) none none) :=
  ⟨rfl, rfl, construct_empty_optional_strings "" "ab" "m/0" 7 2 [] [171] rfl rfl⟩

/-- C10: a signature payload carrying bytes under key 2 and nothing under
key 1 decodes to `request_id = none` with those bytes as the signature, and
the request-id accessor on a record without a request id reports the
explicit "No request id supplied" error (never a success, empty or
otherwise). -/
theorem tron_signature_decode_no_request_id :
    (∀ (m : List (Value × Value)) (b : List Nat), getInt m 1 = none →
        asBytes (getInt m 2) = some b →
        TronSignature.try_from (Value.map m) = Except.ok ⟨none, b⟩) ∧
    (∀ s : TronSignature, s.request_id = none →
        tron_signature_get_request_id s = Response.error "No request id supplied") := by
  constructor
  · intro m b h1 h2
    simp only [TronSignature.try_from, h2, h1]
    rfl
  · intro s h
    simp [tron_signature_get_request_id, h]

theorem tron_signature_decode_no_request_id_witness :
    (getInt [(Value.integer 2, Value.bytes [9])] 1 = none ∧
     asBytes (getInt [(Value.integer 2, Value.bytes [9])] 2) = some [9] ∧
     TronSignature.try_from (Value.map [(Value.integer 2, Value.bytes [9])]) =
       Except.ok ⟨none, [9]⟩) ∧
    ((⟨none, [9]⟩ : TronSignature).request_id = none ∧
     tron_signature_get_request_id ⟨none, [9]⟩ =
       Response.error "No request id supplied") :=
  ⟨⟨rfl, rfl, tron_signature_decode_no_request_id.1 _ _ rfl rfl⟩,
   ⟨rfl, tron_signature_decode_no_request_id.2 _ rfl⟩⟩

lemma isDigit_ne {c : Char} (a : Char) (h : c.isDigit = true) (ha : a.isDigit = false) :
    c ≠ a := by
  intro he
  subst he
  rw [h] at ha
  cases ha

lemma digitChar_isDigit {d : Nat} (h : d < 10) : (Nat.digitChar d).isDigit = true := by
  interval_cases d <;> decide

lemma digitChar_val {d : Nat} (h : d < 10) : (Nat.digitChar d).toNat - 48 = d := by
  interval_cases d <;> decide

lemma natChars_ne_nil (n : Nat) : natChars n ≠ [] := by
  by_cases h : n = 0
  · subst h
    decide
  · simp [natChars, h, Nat.digits_ne_nil_iff_ne_zero]

lemma natChars_isDigit (n : Nat) : ∀ c ∈ natChars n, c.isDigit = true := by
  intro c hc
  by_cases h : n = 0
  · subst h
    rw [show natChars 0 = ['0'] from rfl] at hc
    simp only [List.mem_singleton] at hc
    subst hc
    decide
  · simp only [natChars, if_neg h, List.mem_reverse, List.mem_map] at hc
    obtain ⟨d, hd, rfl⟩ := hc
    exact digitChar_isDigit (Nat.digits_lt_base (by norm_num) hd)

lemma natChars_head (n : Nat) : ∃ c t, natChars n = c :: t ∧ c.isDigit = true := by
  rcases hc : natChars n with _ | ⟨c, t⟩
  · exact absurd hc (natChars_ne_nil n)
  · exact ⟨c, t, rfl, natChars_isDigit n c (by rw [hc]; simp)⟩

lemma foldr_digitChar (ds : List Nat) (h : ∀ d ∈ ds, d < 10) :
    List.foldr (fun c a => a * 10 + (c.toNat - 48)) 0 (ds.map Nat.digitChar) =
      Nat.ofDigits 10 ds := by
  induction ds with
  | nil => simp [Nat.ofDigits_nil]
  | cons d ds ih =>
    simp only [List.map_cons, List.foldr_cons, Nat.ofDigits_cons]
    rw [ih (fun x hx => h x (List.mem_cons_of_mem _ hx)),
      digitChar_val (h d (List.mem_cons_self _ _))]
    omega

lemma natChars_fold (n : Nat) :
    (natChars n).foldl (fun a c => a * 10 + (c.toNat - 48)) 0 = n := by
  by_cases h : n = 0
  · subst h
    decide
  · simp only [natChars, if_neg h]
    rw [List.foldl_reverse]
    have := foldr_digitChar (Nat.digits 10 n) (fun d hd => Nat.digits_lt_base (by norm_num) hd)
    simp only [List.foldr_map] at this ⊢
    rw [this]
    exact Nat.ofDigits_digits 10 n

lemma parseU32_digits (l : List Char) (hne : l ≠ []) (hd : ∀ c ∈ l, c.isDigit = true)
    (hlt : l.foldl (fun a c => a * 10 + (c.toNat - 48)) 0 < 2 ^ 32) :
    parseU32 l = some (l.foldl (fun a c => a * 10 + (c.toNat - 48)) 0) := by
  obtain ⟨c, t, rfl⟩ : ∃ c t, l = c :: t := by
    cases l with
    | nil => exact absurd rfl hne
    | cons c t => exact ⟨c, t, rfl⟩
  have hplus : ¬(c = '+') := isDigit_ne '+' (hd c (List.mem_cons_self _ _)) (by decide)
  have hcond : (c :: t ≠ [] ∧ (c :: t).all fun c => c.isDigit) := by
    refine ⟨by simp, ?_⟩
    rw [List.all_eq_true]
    exact hd
  simp only [parseU32, if_neg hplus, if_pos hcond, if_pos hlt]

lemma parseU32_natChars {n : Nat} (hn : n < 2 ^ 32) : parseU32 (natChars n) = some n := by
  have h := parseU32_digits (natChars n) (natChars_ne_nil n) (natChars_isDigit n)
    (by rw [natChars_fold]; exact hn)
  rw [natChars_fold] at h
  exact h

lemma parseU32_lt {l : List Char} {n : Nat} (h : parseU32 l = some n) : n < 2 ^ 32 := by
  simp only [parseU32] at h
  split at h
  · split at h
    · cases h
      assumption
    · cases h
  · cases h

lemma dropWhile_apos_digits (l : List Char) (hd : ∀ c ∈ l, c.isDigit = true) :
    l.reverse.dropWhile (fun c => c == apos) = l.reverse := by
  rcases hr : l.reverse with _ | ⟨c, t⟩
  · rfl
  · have hc : c ∈ l := by
      rw [← List.mem_reverse, hr]
      simp
    have hne : c ≠ apos := isDigit_ne apos (hd c hc) (by decide)
    rw [List.dropWhile_cons]
    simp [hne]

lemma trimApos_digits (l : List Char) (hd : ∀ c ∈ l, c.isDigit = true) :
    trimApos l = l := by
  simp only [trimApos, dropWhile_apos_digits l hd, List.reverse_reverse]

lemma trimApos_digits_apos (l : List Char) (hd : ∀ c ∈ l, c.isDigit = true) :
    trimApos (l ++ [apos]) = l := by
  simp only [trimApos, List.reverse_append]
  rw [show ([apos] : List Char).reverse ++ l.reverse = apos :: l.reverse by simp]
  rw [List.dropWhile_cons]
  simp only [beq_self_eq_true, if_true]
  rw [dropWhile_apos_digits l hd, List.reverse_reverse]

lemma endsApos_digits (l : List Char) (hne : l ≠ []) (hd : ∀ c ∈ l, c.isDigit = true) :
    endsApos l = false := by
  rcases hr : l.reverse with _ | ⟨c, t⟩
  · rw [List.reverse_eq_nil_iff] at hr
    exact absurd hr hne
  · have hc : c ∈ l := by
      rw [← List.mem_reverse, hr]
      simp
    have hne2 : c ≠ apos := isDigit_ne apos (hd c hc) (by decide)
    simp [endsApos, hr, hne2]

lemma endsApos_append_apos (l : List Char) : endsApos (l ++ [apos]) = true := by
  simp [endsApos, List.reverse_append]

lemma parsePart_renderPair (i : Nat) (b : Bool) (hi : i < 2 ^ 32) :
    parsePart (renderPair (i, b)) = Except.ok (i, b) := by
  cases b with
  | false =>
    have hr : renderPair (i, false) = natChars i := by simp [renderPair]
    rw [hr]
    simp [parsePart, trimApos_digits _ (natChars_isDigit i), parseU32_natChars hi,
      endsApos_digits _ (natChars_ne_nil i) (natChars_isDigit i)]
  | true =>
    have hr : renderPair (i, true) = natChars i ++ [apos] := by simp [renderPair]
    rw [hr]
    simp [parsePart, trimApos_digits_apos _ (natChars_isDigit i), parseU32_natChars hi,
      endsApos_append_apos]

lemma parseParts_renderPairs (comps : List (Nat × Bool)) (hb : ∀ p ∈ comps, p.1 < 2 ^ 32) :
    parseParts (comps.map renderPair) = Except.ok comps := by
  induction comps with
  | nil => rfl
  | cons p ps ih =>
    obtain ⟨i, b⟩ := p
    simp only [List.map_cons, parseParts,
      parsePart_renderPair i b (hb (i, b) (List.mem_cons_self _ _)),
      ih (fun q hq => hb q (List.mem_cons_of_mem _ hq))]

lemma splitOnChar_ne_nil (sep : Char) (l : List Char) : splitOnChar sep l ≠ [] := by
  cases l with
  | nil => simp [splitOnChar]
  | cons c rest =>
    by_cases hc : c = sep
    · simp [splitOnChar, hc]
    · simp only [splitOnChar, if_neg hc]
      cases hsp : splitOnChar sep rest <;> simp

lemma splitOnChar_no_sep (sep : Char) (p : List Char) (hp : ∀ c ∈ p, c ≠ sep) :
    splitOnChar sep p = [p] := by
  induction p with
  | nil => rfl
  | cons c t ih =>
    have hc : c ≠ sep := hp c (List.mem_cons_self _ _)
    simp only [splitOnChar, if_neg hc, ih (fun x hx => hp x (List.mem_cons_of_mem _ hx))]

lemma splitOnChar_append (sep : Char) (p rest : List Char) (hp : ∀ c ∈ p, c ≠ sep) :
    splitOnChar sep (p ++ sep :: rest) = p :: splitOnChar sep rest := by
  induction p with
  | nil => simp [splitOnChar]
  | cons c t ih =>
    have hc : c ≠ sep := hp c (List.mem_cons_self _ _)
    have iht := ih (fun x hx => hp x (List.mem_cons_of_mem _ hx))
    simp only [List.cons_append, splitOnChar, List.append_eq, if_neg hc, iht]

lemma renderPair_ne_slash (p : Nat × Bool) : ∀ c ∈ renderPair p, c ≠ '/' := by
  intro c hc
  simp only [renderPair, List.mem_append] at hc
  rcases hc with h1 | h1
  · exact isDigit_ne '/' (natChars_isDigit p.1 c h1) (by decide)
  · cases hb : p.2 with
    | false =>
      rw [hb] at h1
      simp at h1
    | true =>
      rw [hb] at h1
      simp at h1
      subst h1
      decide

lemma renderPair_head (p : Nat × Bool) : ∃ c t, renderPair p = c :: t ∧ c.isDigit = true := by
  obtain ⟨c, t, hct, hcd⟩ := natChars_head p.1
  exact ⟨c, t ++ (if p.2 then [apos] else []), by simp [renderPair, hct], hcd⟩

lemma stripLeadingM_digit_head {a : Char} (t : List Char) (h : a.isDigit = true) :
    stripLeadingM (a :: t) = a :: t := by
  cases t with
  | nil => rfl
  | cons b t2 =>
    have ham : ¬(a = 'm' ∧ b = '/') := fun hand => absurd (hand.1 ▸ h) (by decide)
    simp [stripLeadingM, ham]

lemma split_renderPairs (c : Nat × Bool) (cs : List (Nat × Bool)) :
    splitOnChar '/' (renderPair c ++ renderPairs cs) = (c :: cs).map renderPair := by
  induction cs generalizing c with
  | nil =>
    simp only [renderPairs, List.append_nil, List.map_cons, List.map_nil]
    exact splitOnChar_no_sep '/' (renderPair c) (renderPair_ne_slash c)
  | cons c2 cs2 ih =>
    simp only [renderPairs]
    rw [splitOnChar_append '/' _ _ (renderPair_ne_slash c), ih c2]
    simp

lemma parsePart_lt {p : List Char} {c : Nat × Bool} (h : parsePart p = Except.ok c) :
    c.1 < 2 ^ 32 := by
  simp only [parsePart] at h
  rcases hu : parseU32 (trimApos p) with _ | i
  · rw [hu] at h
    cases h
  · rw [hu] at h
    cases h
    exact parseU32_lt hu

lemma parseParts_lt {ps : List (List Char)} {comps : List (Nat × Bool)}
    (h : parseParts ps = Except.ok comps) : ∀ p ∈ comps, p.1 < 2 ^ 32 := by
  induction ps generalizing comps with
  | nil =>
    cases h
    intro p hp
    simp at hp
  | cons q qs ih =>
    simp only [parseParts] at h
    rcases hq : parsePart q with e | c
    · rw [hq] at h
      cases h
    · rw [hq] at h
      rcases hqs : parseParts qs with e | cs
      · rw [hqs] at h
        cases h
      · rw [hqs] at h
        cases h
        intro p hp
        rcases List.mem_cons.mp hp with rfl | hp2
        · exact parsePart_lt hq
        · exact ih hqs p hp2

lemma parseParts_ne_nil {ps : List (List Char)} {comps : List (Nat × Bool)}
    (h : parseParts ps = Except.ok comps) (hne : ps ≠ []) : comps ≠ [] := by
  cases ps with
  | nil => exact absurd rfl hne
  | cons q qs =>
    simp only [parseParts] at h
    rcases hq : parsePart q with e | c
    · rw [hq] at h
      cases h
    · rw [hq] at h
      rcases hqs : parseParts qs with e | cs
      · rw [hqs] at h
        cases h
      · rw [hqs] at h
        cases h
        simp

lemma parsePathString_mk_render (comps : List (Nat × Bool)) (hne : comps ≠ [])
    (hb : ∀ p ∈ comps, p.1 < 2 ^ 32) :
    parsePathString (String.mk ('m' :: renderPairs comps)) = Except.ok comps := by
  cases comps with
  | nil => exact absurd rfl hne
  | cons c cs =>
    show parseParts (splitOnChar '/' (stripLeadingM ('m' :: renderPairs (c :: cs)))) =
      Except.ok (c :: cs)
    have hstep1 : stripLeadingM ('m' :: renderPairs (c :: cs)) =
        stripLeadingM (renderPair c ++ renderPairs cs) := by
      simp [renderPairs, stripLeadingM]
    have hhead : stripLeadingM (renderPair c ++ renderPairs cs) =
        renderPair c ++ renderPairs cs := by
      obtain ⟨d, t, hdt, hdd⟩ := renderPair_head c
      rw [hdt, List.cons_append]
      exact stripLeadingM_digit_head _ hdd
    rw [hstep1, hhead, split_renderPairs]
    exact parseParts_renderPairs _ hb

lemma toU32_coe {n : Nat} (h : n < 2 ^ 32) : toU32 (n : Int) = n := by
  simp only [toU32]
  rw [Int.emod_eq_of_lt (by positivity) (by exact_mod_cast h)]
  exact Int.toNat_ofNat n

lemma renderComponents_encoded (comps : List (Nat × Bool)) (hb : ∀ p ∈ comps, p.1 < 2 ^ 32) :
    renderComponents (comps.map fun p =>
      Value.array [Value.integer (p.1 : Int), Value.bool p.2]) = renderPairs comps := by
  induction comps with
  | nil => rfl
  | cons c cs ih =>
    simp only [List.map_cons, renderComponents, componentChars]
    rw [toU32_coe (hb c (List.mem_cons_self _ _)),
      ih (fun q hq => hb q (List.mem_cons_of_mem _ hq))]
    simp [renderPairs, renderPair]

/-- C1: for every request whose derivation_path is a well-formed canonical
textual path (each component an unsigned 32-bit integer optionally suffixed
by a hardening marker, i.e. the path the encode-side parser accepts),
decoding the encoded form succeeds and reproduces sign_data, data_type, and
the ordered (index, hardened) component sequence of the derivation path. -/
theorem tron_sign_request_roundtrip (x : TronSignRequest)
    (hwf : ∃ comps, parsePathString x.derivation_path = Except.ok comps)
    (hdt : x.data_type < 2 ^ 32) :
    ∃ v r, x.to_bytes = Except.ok v ∧ TronSignRequest.try_from v = Except.ok r ∧
      r.sign_data = x.sign_data ∧ r.data_type = x.data_type ∧
      parsePathString r.derivation_path = parsePathString x.derivation_path := by
  obtain ⟨comps, hc⟩ := hwf
  have hb : ∀ p ∈ comps, p.1 < 2 ^ 32 := parseParts_lt hc
  have hne : comps ≠ [] := parseParts_ne_nil hc (splitOnChar_ne_nil '/' _)
  set comps2 := comps.map fun p => Value.array [Value.integer (p.1 : Int), Value.bool p.2]
    with hcomps2
  set xtail := (match x.xfp with
    | some f => [(Value.integer 2, Value.integer (f : Int))]
    | none => ([] : List (Value × Value))) with hxtail
  set pv := Value.map ((Value.integer 1, Value.array comps2) :: xtail) with hpv
  have henc : encode_derivation_path x.derivation_path x.xfp = Except.ok pv := by
    simp only [encode_derivation_path, hc]
  set L := ((match x.request_id with
      | some id => [(Value.integer 1, Value.bytes id)]
      | none => ([] : List (Value × Value))) ++
    (Value.integer 2, Value.bytes x.sign_data) ::
    (Value.integer 3, Value.integer (x.data_type : Int)) ::
    (Value.integer 4, pv) ::
    ((match x.address with
      | some a => [(Value.integer 5, Value.text a)]
      | none => []) ++
     (match x.origin with
      | some o => [(Value.integer 6, Value.text o)]
      | none => []))) with hL
  have htb : x.to_bytes = Except.ok (Value.map L) := by
    simp only [TronSignRequest.to_bytes, henc]
  have hg2 : getInt L 2 = some (Value.bytes x.sign_data) := by
    rcases hri : x.request_id with _ | id <;> simp [hL, getInt, hri]
  have hg3 : getInt L 3 = some (Value.integer (x.data_type : Int)) := by
    rcases hri : x.request_id with _ | id <;> simp [hL, getInt, hri]
  have hg4 : getInt L 4 = some pv := by
    rcases hri : x.request_id with _ | id <;> simp [hL, getInt, hri]
  have hrc : renderComponents comps2 = renderPairs comps := by
    rw [hcomps2]
    exact renderComponents_encoded comps hb
  have hdec : decode_derivation_path (getInt L 4) =
      Except.ok (String.mk ('m' :: renderPairs comps)) := by
    rw [hg4, hpv]
    simp [decode_derivation_path, getInt, hrc]
  have h2 : asBytes (getInt L 2) = some x.sign_data := by
    rw [hg2]
    rfl
  have htf : TronSignRequest.try_from (Value.map L) = Except.ok
      ⟨asBytes (getInt L 1), x.sign_data, toU32 (x.data_type : Int),
       String.mk ('m' :: renderPairs comps), none,
       asText (getInt L 5), asText (getInt L 6)⟩ := by
    simp only [TronSignRequest.try_from, h2, hdec, hg3]
  refine ⟨Value.map L, _, htb, htf, rfl, toU32_coe hdt, ?_⟩
  rw [parsePathString_mk_render comps hne hb, hc]

theorem tron_sign_request_roundtrip_witness :
    (∃ comps, parsePathString
      (⟨none, [7], 1, "m/0'", none, none, none⟩ : TronSignRequest).derivation_path =
        Except.ok comps) ∧
    (⟨none, [7], 1, "m/0'", none, none, none⟩ : TronSignRequest).data_type < 2 ^ 32 ∧
    ∃ v r, TronSignRequest.to_bytes ⟨none, [7], 1, "m/0'", none, none, none⟩ =
        Except.ok v ∧
      TronSignRequest.try_from v = Except.ok r ∧
      r.sign_data = (⟨none, [7], 1, "m/0'", none, none, none⟩ : TronSignRequest).sign_data ∧
      r.data_type = (⟨none, [7], 1, "m/0'", none, none, none⟩ : TronSignRequest).data_type ∧
      parsePathString r.derivation_path = parsePathString
        (⟨none, [7], 1, "m/0'", none, none, none⟩ : TronSignRequest).derivation_path :=
  ⟨⟨[(0, true)], rfl⟩, by norm_num,
    tron_sign_request_roundtrip ⟨none, [7], 1, "m/0'", none, none, none⟩
      ⟨[(0, true)], rfl⟩ (by norm_num)⟩

lemma parsePart_error_msg {p : List Char} {e : String} (h : parsePart p = Except.error e) :
    e = "Invalid path component: " ++ String.mk p := by
  simp only [parsePart] at h
  rcases hu : parseU32 (trimApos p) with _ | i
  · rw [hu] at h
    cases h
    rfl
  · rw [hu] at h
    cases h

lemma parseParts_error_mem {ps : List (List Char)} {e : String}
    (h : parseParts ps = Except.error e) :
    ∃ q ∈ ps, parsePart q = Except.error e := by
  induction ps generalizing e with
  | nil => cases h
  | cons q qs ih =>
    simp only [parseParts] at h
    rcases hq : parsePart q with e2 | c
    · rw [hq] at h
      cases h
      exact ⟨q, by simp, hq⟩
    · rw [hq] at h
      rcases hqs : parseParts qs with e2 | cs
      · rw [hqs] at h
        cases h
        obtain ⟨q2, hm, he⟩ := ih hqs
        exact ⟨q2, List.mem_cons_of_mem _ hm, he⟩
      · rw [hqs] at h
        cases h

lemma parseParts_error_of_mem {ps : List (List Char)} {p : List Char} {e0 : String}
    (hp : p ∈ ps) (hbad : parsePart p = Except.error e0) :
    ∃ q e, q ∈ ps ∧ parsePart q = Except.error e ∧ parseParts ps = Except.error e := by
  induction ps with
  | nil => cases hp
  | cons q qs ih =>
    rcases hq : parsePart q with e2 | c
    · exact ⟨q, e2, by simp, hq, by simp only [parseParts, hq]⟩
    · rcases List.mem_cons.mp hp with rfl | hp2
      · rw [hq] at hbad
        cases hbad
      · obtain ⟨q2, e2, hm, he, hps⟩ := ih hp2
        exact ⟨q2, e2, List.mem_cons_of_mem _ hm, he, by simp only [parseParts, hq, hps]⟩

lemma to_bytes_error_iff (x : TronSignRequest) (e : String) :
    x.to_bytes = Except.error e ↔ parsePathString x.derivation_path = Except.error e := by
  constructor
  · intro h
    simp only [TronSignRequest.to_bytes, encode_derivation_path] at h
    rcases hc : parsePathString x.derivation_path with e2 | comps
    · rw [hc] at h
      cases h
      rfl
    · rw [hc] at h
      cases h
  · intro h
    simp only [TronSignRequest.to_bytes, encode_derivation_path, h]

/-- C8: `to_bytes` fails exactly on a malformed derivation-path component:
whenever some component of the split path is not an optionally-hardened
unsigned integer, encoding fails with a syntax error whose message names an
offending component, and conversely every `to_bytes` error names such a
component (the byte-writer layer, external to this repository, is the only
other failure source the source code allows and is out of scope here). -/
theorem to_bytes_path_syntax_error (x : TronSignRequest) :
    (∀ e, x.to_bytes = Except.error e →
      ∃ q, q ∈ pathParts x.derivation_path ∧ parsePart q = Except.error e ∧
        e = "Invalid path component: " ++ String.mk q) ∧
    (∀ p e0, p ∈ pathParts x.derivation_path → parsePart p = Except.error e0 →
      ∃ q, q ∈ pathParts x.derivation_path ∧
        x.to_bytes = Except.error ("Invalid path component: " ++ String.mk q)) := by
  constructor
  · intro e h
    have hp : parsePathString x.derivation_path = Except.error e := (to_bytes_error_iff x e).mp h
    obtain ⟨q, hm, he⟩ := parseParts_error_mem hp
    exact ⟨q, hm, he, parsePart_error_msg he⟩
  · intro p e0 hp hbad
    obtain ⟨q, e, hm, he, hps⟩ := parseParts_error_of_mem hp hbad
    refine ⟨q, hm, ?_⟩
    rw [← parsePart_error_msg he]
    exact (to_bytes_error_iff x e).mpr hps

theorem to_bytes_path_syntax_error_witness :
    (['5', 'x'] ∈ pathParts
      (⟨none, [], 1, "m/5x", none, none, none⟩ : TronSignRequest).derivation_path) ∧
    parsePart ['5', 'x'] =
      Except.error ("Invalid path component: " ++ String.mk ['5', 'x']) ∧
    ∃ q, q ∈ pathParts
        (⟨none, [], 1, "m/5x", none, none, none⟩ : TronSignRequest).derivation_path ∧
      TronSignRequest.to_bytes ⟨none, [], 1, "m/5x", none, none, none⟩ =
        Except.error ("Invalid path component: " ++ String.mk q) :=
  ⟨by decide, rfl,
    (to_bytes_path_syntax_error ⟨none, [], 1, "m/5x", none, none, none⟩).2
      ['5', 'x'] ("Invalid path component: " ++ String.mk ['5', 'x']) (by decide) rfl⟩
